import Mathlib

/-
Verification development for the root-finder repository.

The six numerical methods (bisection, regula falsi, Newton-Raphson, secant,
graphical scan, incremental search) are shallowly embedded over the exact
rationals ℚ: Python floats are idealized as exact rational arithmetic, and
Python's built-in round (banker's rounding at d decimal digits) is modelled
exactly by pyround.  Python while/for loops are modelled by structural
recursion on an explicit fuel argument equal to the source's iteration bound.
Division in ℚ is total with q / 0 = 0; the source guards every division that
its own tests exercise (Newton's ea, secant's ea and slope, incremental's
root slope), the one unguarded spot (bisection's relative error at midpoint
exactly 0) is noted at its definition.

For incremental_search the objective is a black box that can also return a
non-finite value (NaN/inf) or raise; it is embedded as a function into PyVal,
with constructors for a finite value, a non-finite value, and a raised
exception, mirroring the try/except and isnan/isinf structure of the source.
-/

namespace RootFinder

/-- Threshold 1e-10 used by the source for division-by-zero avoidance. -/
def eps : ℚ := 1 / 10 ^ 10

/-- Floor of a rational, computed with flooring integer division. -/
def qfloor (x : ℚ) : ℤ := Int.fdiv x.num (x.den : ℤ)

/-- Ceiling of a rational. -/
def qceil (x : ℚ) : ℤ := -(qfloor (-x))

/-- Python's round(x, d): round to d decimal digits, ties to even
(banker's rounding), modelled exactly on ℚ. -/
def pyround (d : ℕ) (x : ℚ) : ℚ :=
  let m : ℚ := (10 : ℚ) ^ d
  let n : ℤ := qfloor (x * m)
  let r : ℚ := x * m - (n : ℚ)
  let k : ℤ :=
    if r < 1 / 2 then n
    else if 1 / 2 < r then n + 1
    else if n % 2 = 0 then n else n + 1
  (k : ℚ) / m

/-! ## Bisection (src/rootFinder/methods/bracketing/bisection.py) -/

/-- One row of bisection's iteration table.  Column "f(xl)·f(xu)" is the
string "< 0" or "> 0" in the source and is kept as that string. -/
structure BRec where
  iteration : ℕ
  xl : ℚ
  xr : ℚ
  xu : ℚ
  fxl : ℚ
  fxr : ℚ
  fxu : ℚ
  eaPct : ℚ
  signTag : String
  remark : String
  deriving DecidableEq

/-- The updated left endpoint: a is kept when f(a)·f(c) < 0, else it moves
to the midpoint c (bisection.py lines 36-41). -/
def bisectLo (f : ℚ → ℚ) (a b : ℚ) : ℚ :=
  if f a * f ((a + b) / 2) < 0 then a else (a + b) / 2

/-- The updated right endpoint (bisection.py lines 36-41). -/
def bisectHi (f : ℚ → ℚ) (a b : ℚ) : ℚ :=
  if f a * f ((a + b) / 2) < 0 then (a + b) / 2 else b

/-- Absolute relative approximate error in percent
(bisection.py lines 30-32): 0 on the first iteration (x_old is None),
otherwise abs((c - x_old)/c) * 100 for the current midpoint c.
The source divides by c without a zero guard; ℚ division is total with
q / 0 = 0, idealizing the float case c = 0 that Python would fault on. -/
def bisectErr (a b : ℚ) (xOld : Option ℚ) : ℚ :=
  match xOld with
  | none => 0
  | some v => |((a + b) / 2 - v) / ((a + b) / 2)| * 100

/-- The table row appended by one bisection iteration
(bisection.py lines 44-55); xl and xu hold the already-updated endpoints. -/
def bisectRec (f : ℚ → ℚ) (a b : ℚ) (xOld : Option ℚ) (it : ℕ) : BRec :=
  { iteration := it
    xl := pyround 7 (bisectLo f a b)
    xr := pyround 7 ((a + b) / 2)
    xu := pyround 7 (bisectHi f a b)
    fxl := pyround 7 (f a)
    fxr := pyround 7 (f ((a + b) / 2))
    fxu := pyround 7 (f b)
    eaPct := pyround 7 (bisectErr a b xOld)
    signTag := if f a * f b < 0 then "< 0" else "> 0"
    remark := if f a * f ((a + b) / 2) < 0 then "1st subinterval" else "2nd subinterval" }

/-- The bisection while-loop (bisection.py lines 23-68), fuel counts the
remaining iterations of `while iteration <= max_iter`.  The residual check
|f(c)| < 1e-10 sits after the iteration counter update in the source but
still inside the same loop body, so it belongs to the same fuel step. -/
def bisection_go (f : ℚ → ℚ) (tol a b : ℚ) (xOld : Option ℚ) (it : ℕ) :
    ℕ → List ℚ × List BRec
  | 0 => ([], [])
  | fuel + 1 =>
    if bisectErr a b xOld < tol ∧ 1 < it then
      ([pyround 7 ((a + b) / 2)], [bisectRec f a b xOld it])
    else if |f ((a + b) / 2)| < eps then
      ([pyround 7 ((a + b) / 2)], [bisectRec f a b xOld it])
    else
      ((bisection_go f tol (bisectLo f a b) (bisectHi f a b) (some ((a + b) / 2)) (it + 1) fuel).1,
        bisectRec f a b xOld it ::
          (bisection_go f tol (bisectLo f a b) (bisectHi f a b) (some ((a + b) / 2)) (it + 1) fuel).2)

/-- bisection_method(f, a, b, tol, max_iter) from bisection.py: refuse to
run when f(a)·f(b) > 0, else iterate from the full bracket. -/
def bisection_method (f : ℚ → ℚ) (a b tol : ℚ) (maxIter : ℕ) : List ℚ × List BRec :=
  if f a * f b > 0 then ([], []) else bisection_go f tol a b none 1 maxIter

/-- The polynomial x² + 1 (spec's boundary example, no real root). -/
def onePlusSq : ℚ → ℚ := fun x => x * x + 1

/-- C1: for every f, a, b with f(a)·f(b) > 0, bisection_method returns the
pair of an empty root list and an empty record list, performing no
iteration. -/
theorem c1_bisection_refuses_without_sign_change (f : ℚ → ℚ) (a b tol : ℚ)
    (maxIter : ℕ) (h : f a * f b > 0) :
    bisection_method f a b tol maxIter = ([], []) := by
  unfold bisection_method
  rw [if_pos h]

/-- Witness for C1 at f(x) = x² + 1 on [-1, 1]: the precondition holds and
the result is the empty pair. -/
theorem c1_witness :
    onePlusSq (-1) * onePlusSq 1 > 0 ∧
      bisection_method onePlusSq (-1) 1 (1 / 2) 50 = ([], []) :=
  ⟨by norm_num [onePlusSq],
    c1_bisection_refuses_without_sign_change onePlusSq (-1) 1 (1 / 2) 50 (by norm_num [onePlusSq])⟩

/-! ## Newton-Raphson (src/rootFinder/methods/open/newton_raphson.py) -/

/-- One row of Newton-Raphson's iteration table.  The ea column is None on
a flat-derivative stall; Status is set only by the max-iterations marker. -/
structure NRec where
  iteration : ℕ
  xi : ℚ
  ea : Option ℚ
  fxi : ℚ
  dfxi : ℚ
  status : Option String
  deriving DecidableEq

/-- The Newton update x_new = x - f(x)/f'(x) (newton_raphson.py line 30). -/
def newtonNext (f df : ℚ → ℚ) (x : ℚ) : ℚ := x - f x / df x

/-- Relative error ea = abs((x_new - x)/x_new) if x_new != 0 else 0
(newton_raphson.py line 33). -/
def newtonEa (f df : ℚ → ℚ) (x : ℚ) : ℚ :=
  if newtonNext f df x ≠ 0 then |(newtonNext f df x - x) / newtonNext f df x| else 0

/-- The record appended when |f'(x)| < 1e-10 (newton_raphson.py lines 20-26):
ea is None. -/
def newtonStallRec (f df : ℚ → ℚ) (x : ℚ) (it : ℕ) : NRec :=
  { iteration := it, xi := pyround 6 x, ea := none,
    fxi := pyround 6 (f x), dfxi := pyround 6 (df x), status := none }

/-- The ordinary per-iteration record (newton_raphson.py lines 36-42),
appended before the convergence check, with the pre-update x.  The source's
`if ea is not None` is vestigial there (ea is always a number on this path). -/
def newtonIterRec (f df : ℚ → ℚ) (x : ℚ) (it : ℕ) : NRec :=
  { iteration := it, xi := pyround 6 x, ea := some (pyround 3 (newtonEa f df x * 100)),
    fxi := pyround 6 (f x), dfxi := pyround 6 (df x), status := none }

/-- Sets table_data[-1]["Status"] = "Max iterations reached". -/
def markMaxIterN (r : NRec) : NRec := { r with status := some "Max iterations reached" }

/-- The Newton-Raphson for-loop (newton_raphson.py lines 14-53); fuel counts
the remaining passes of `for iteration in range(max_iter)`.  The source sets
the Status marker on the record it just appended when iteration ==
max_iter - 1 and neither break fired. -/
def newton_go (f df : ℚ → ℚ) (tol : ℚ) (maxIter : ℕ) (x : ℚ) (it : ℕ) :
    ℕ → List ℚ × List NRec
  | 0 => ([], [])
  | fuel + 1 =>
    if |df x| < eps then ([], [newtonStallRec f df x it])
    else if newtonEa f df x < tol then
      ([pyround 6 (newtonNext f df x)], [newtonIterRec f df x it])
    else
      ((newton_go f df tol maxIter (newtonNext f df x) (it + 1) fuel).1,
        (if it = maxIter - 1 then markMaxIterN (newtonIterRec f df x it)
          else newtonIterRec f df x it) ::
          (newton_go f df tol maxIter (newtonNext f df x) (it + 1) fuel).2)

set_option linter.unusedVariables false in
/-- newton_raphson(f, df, x0, tol, max_iter, num_guesses) from
newton_raphson.py: a single trajectory from x0; num_guesses is accepted but
never read by the body. -/
def newton_raphson (f df : ℚ → ℚ) (x0 tol : ℚ) (maxIter numGuesses : ℕ) :
    List ℚ × List NRec :=
  newton_go f df tol maxIter x0 0 maxIter

/-! ## Secant (src/rootFinder/methods/open/secant.py) -/

/-- One row of the secant method's iteration table. -/
structure SRec where
  iterationNumber : ℕ
  xiPrev : ℚ
  xi : ℚ
  xiNext : ℚ
  ea : ℚ
  fxiPrev : ℚ
  fxi : ℚ
  fxiNext : ℚ
  status : Option String
  deriving DecidableEq

/-- The secant update (secant.py line 24). -/
def secantNext (f : ℚ → ℚ) (xp xi : ℚ) : ℚ :=
  xi - f xi * (xi - xp) / (f xi - f xp)

/-- Relative error ea (secant.py line 27). -/
def secantEa (f : ℚ → ℚ) (xp xi : ℚ) : ℚ :=
  if secantNext f xp xi ≠ 0 then |(secantNext f xp xi - xi) / secantNext f xp xi| else 0

/-- The per-iteration record (secant.py lines 30-39); f(xi+1) is freshly
evaluated at the new candidate. -/
def secantRec (f : ℚ → ℚ) (xp xi : ℚ) (it : ℕ) : SRec :=
  { iterationNumber := it + 1, xiPrev := pyround 6 xp, xi := pyround 6 xi,
    xiNext := pyround 6 (secantNext f xp xi), ea := pyround 3 (secantEa f xp xi * 100),
    fxiPrev := pyround 6 (f xp), fxi := pyround 6 (f xi),
    fxiNext := pyround 6 (f (secantNext f xp xi)), status := none }

/-- Sets table_data[-1]["Status"] = "Max iterations reached". -/
def markMaxIterS (r : SRec) : SRec := { r with status := some "Max iterations reached" }

/-- The secant for-loop (secant.py lines 14-52); fuel counts the remaining
passes.  On a slope underflow |f(xi) - f(xi-1)| < 1e-10 the source breaks
before appending anything. -/
def secant_go (f : ℚ → ℚ) (tol : ℚ) (maxIter : ℕ) (xp xi : ℚ) (it : ℕ) :
    ℕ → List ℚ × List SRec
  | 0 => ([], [])
  | fuel + 1 =>
    if |f xi - f xp| < eps then ([], [])
    else if secantEa f xp xi < tol ∧ |f (secantNext f xp xi)| < tol then
      ([pyround 6 (secantNext f xp xi)], [secantRec f xp xi it])
    else
      ((secant_go f tol maxIter xi (secantNext f xp xi) (it + 1) fuel).1,
        (if it = maxIter - 1 then markMaxIterS (secantRec f xp xi it)
          else secantRec f xp xi it) ::
          (secant_go f tol maxIter xi (secantNext f xp xi) (it + 1) fuel).2)

/-- secant_method(f, x0, x1, tol, max_iter) from secant.py. -/
def secant_method (f : ℚ → ℚ) (x0 x1 tol : ℚ) (maxIter : ℕ) : List ℚ × List SRec :=
  secant_go f tol maxIter x0 x1 0 maxIter

/-! ## Concrete objectives used by witnesses -/

/-- The polynomial x² - 4 (the spec's running example). -/
def sq4 : ℚ → ℚ := fun x => x * x - 4

/-- Its derivative 2x. -/
def dsq4 : ℚ → ℚ := fun x => 2 * x

/-- The constant function 1 (flat secant slope everywhere). -/
def constOne : ℚ → ℚ := fun _ => 1

/-! ## Claims about Newton-Raphson and the secant method -/

/-- The source's ea = abs((x_new - x)/x_new) equals the spec's
|x_new - x| / |x_new| form, with the 0-at-x_new-= 0 convention. -/
lemma newtonEa_eq_claim (f df : ℚ → ℚ) (y : ℚ) :
    newtonEa f df y =
      if newtonNext f df y = 0 then 0
      else |newtonNext f df y - y| / |newtonNext f df y| := by
  unfold newtonEa
  by_cases h : newtonNext f df y = 0
  · simp [h]
  · simp [h, abs_div]

/-- The secant loop never accumulates more than one root: it appends a root
only together with a break. -/
lemma secant_go_roots_length_le_one (f : ℚ → ℚ) (tol : ℚ) (maxIter : ℕ) :
    ∀ fuel xp xi it, (secant_go f tol maxIter xp xi it fuel).1.length ≤ 1 := by
  intro fuel
  induction fuel with
  | zero => intro xp xi it; simp [secant_go]
  | succ n ih =>
    intro xp xi it
    simp only [secant_go]
    split
    · simp
    · split
      · simp
      · simpa using ih xi (secantNext f xp xi) (it + 1)

/-- C3: whenever a Newton-Raphson iteration finds |f'(x)| < 1e-10, a record
for that iteration is appended (with ea = None) and the loop terminates with
no root and no exception; otherwise the iteration appends its record with the
pre-update x before the convergence check, and accepts
x_new = x - f(x)/f'(x) as a root exactly when
ea = |x_new - x| / |x_new| (taken as 0 when x_new = 0) is below tol. -/
theorem c3_newton_stall_and_acceptance (f df : ℚ → ℚ) (tol : ℚ) (maxIter : ℕ)
    (x y : ℚ) (itx ity fuelx fuely : ℕ)
    (hflat : |df x| < eps) (hok : ¬ |df y| < eps) :
    (newton_go f df tol maxIter x itx (fuelx + 1) = ([], [newtonStallRec f df x itx]) ∧
      (newtonStallRec f df x itx).ea = none) ∧
    ((newtonIterRec f df y ity).xi = pyround 6 y ∧
      newton_go f df tol maxIter y ity (fuely + 1) =
        if (if newtonNext f df y = 0 then 0
            else |newtonNext f df y - y| / |newtonNext f df y|) < tol then
          ([pyround 6 (newtonNext f df y)], [newtonIterRec f df y ity])
        else
          ((newton_go f df tol maxIter (newtonNext f df y) (ity + 1) fuely).1,
            (if ity = maxIter - 1 then markMaxIterN (newtonIterRec f df y ity)
              else newtonIterRec f df y ity) ::
              (newton_go f df tol maxIter (newtonNext f df y) (ity + 1) fuely).2)) := by
  refine ⟨⟨by simp [newton_go, hflat], rfl⟩, rfl, ?_⟩
  rw [← newtonEa_eq_claim]
  simp only [newton_go]
  rw [if_neg hok]

/-- Witness for C3 at f(x) = x² - 4: the flat-derivative guard fires at
x = 0, and the ordinary iteration step runs at x = 1. -/
theorem c3_witness :
    |dsq4 0| < eps ∧ ¬ |dsq4 1| < eps ∧
    ((newton_go sq4 dsq4 (1 / 1000) 100 0 0 (0 + 1) = ([], [newtonStallRec sq4 dsq4 0 0]) ∧
      (newtonStallRec sq4 dsq4 0 0).ea = none) ∧
    ((newtonIterRec sq4 dsq4 1 0).xi = pyround 6 1 ∧
      newton_go sq4 dsq4 (1 / 1000) 100 1 0 (0 + 1) =
        if (if newtonNext sq4 dsq4 1 = 0 then 0
            else |newtonNext sq4 dsq4 1 - 1| / |newtonNext sq4 dsq4 1|) < 1 / 1000 then
          ([pyround 6 (newtonNext sq4 dsq4 1)], [newtonIterRec sq4 dsq4 1 0])
        else
          ((newton_go sq4 dsq4 (1 / 1000) 100 (newtonNext sq4 dsq4 1) (0 + 1) 0).1,
            (if 0 = 100 - 1 then markMaxIterN (newtonIterRec sq4 dsq4 1 0)
              else newtonIterRec sq4 dsq4 1 0) ::
              (newton_go sq4 dsq4 (1 / 1000) 100 (newtonNext sq4 dsq4 1) (0 + 1) 0).2))) :=
  ⟨by norm_num [dsq4, eps], by norm_num [dsq4, eps],
    c3_newton_stall_and_acceptance sq4 dsq4 (1 / 1000) 100 0 1 0 0 0 0
      (by norm_num [dsq4, eps]) (by norm_num [dsq4, eps])⟩

/-- C2: in secant_method a candidate x_{i+1} is appended as a root exactly
when ea < tol and |f(x_{i+1})| < tol both hold; every iteration that computes
x_{i+1} appends (before that test) a record whose f(xi+1) column holds the
freshly evaluated f(x_{i+1}); and at most one root is ever returned. -/
theorem c2_secant_dual_acceptance (f : ℚ → ℚ) (tol : ℚ) (maxIter : ℕ)
    (xp xi x0 x1 : ℚ) (it fuel fuel2 : ℕ)
    (hslope : ¬ |f xi - f xp| < eps) :
    (secant_method f x0 x1 tol maxIter).1.length ≤ 1 ∧
    (secant_go f tol maxIter xp xi it fuel2).1.length ≤ 1 ∧
    (∃ r, (secant_go f tol maxIter xp xi it (fuel + 1)).2.head? = some r ∧
        r.fxiNext = pyround 6 (f (secantNext f xp xi))) ∧
    secant_go f tol maxIter xp xi it (fuel + 1) =
      (if secantEa f xp xi < tol ∧ |f (secantNext f xp xi)| < tol then
        ([pyround 6 (secantNext f xp xi)], [secantRec f xp xi it])
      else
        ((secant_go f tol maxIter xi (secantNext f xp xi) (it + 1) fuel).1,
          (if it = maxIter - 1 then markMaxIterS (secantRec f xp xi it)
            else secantRec f xp xi it) ::
            (secant_go f tol maxIter xi (secantNext f xp xi) (it + 1) fuel).2)) := by
  refine ⟨secant_go_roots_length_le_one f tol maxIter maxIter x0 x1 0,
    secant_go_roots_length_le_one f tol maxIter fuel2 xp xi it, ?_, ?_⟩
  · simp only [secant_go]
    rw [if_neg hslope]
    split
    · exact ⟨secantRec f xp xi it, by simp, rfl⟩
    · refine ⟨_, rfl, ?_⟩
      split <;> rfl
  · simp only [secant_go]
    rw [if_neg hslope]

/-- Witness for C2: the secant step on f(x) = x² - 4 from the spec's
starting pair (0.5, 5). -/
theorem c2_witness :
    ¬ |sq4 5 - sq4 (1 / 2)| < eps ∧
    ((secant_method sq4 (1 / 2) 5 (1 / 1000) 100).1.length ≤ 1 ∧
    (secant_go sq4 (1 / 1000) 100 (1 / 2) 5 0 3).1.length ≤ 1 ∧
    (∃ r, (secant_go sq4 (1 / 1000) 100 (1 / 2) 5 0 (0 + 1)).2.head? = some r ∧
        r.fxiNext = pyround 6 (sq4 (secantNext sq4 (1 / 2) 5))) ∧
    secant_go sq4 (1 / 1000) 100 (1 / 2) 5 0 (0 + 1) =
      (if secantEa sq4 (1 / 2) 5 < 1 / 1000 ∧ |sq4 (secantNext sq4 (1 / 2) 5)| < 1 / 1000 then
        ([pyround 6 (secantNext sq4 (1 / 2) 5)], [secantRec sq4 (1 / 2) 5 0])
      else
        ((secant_go sq4 (1 / 1000) 100 5 (secantNext sq4 (1 / 2) 5) (0 + 1) 0).1,
          (if 0 = 100 - 1 then markMaxIterS (secantRec sq4 (1 / 2) 5 0)
            else secantRec sq4 (1 / 2) 5 0) ::
            (secant_go sq4 (1 / 1000) 100 5 (secantNext sq4 (1 / 2) 5) (0 + 1) 0).2))) :=
  ⟨by norm_num [sq4, eps, abs_lt],
    c2_secant_dual_acceptance sq4 (1 / 1000) 100 (1 / 2) 5 (1 / 2) 5 0 0 3
      (by norm_num [sq4, eps, abs_lt])⟩

/-- On a slope underflow the secant loop stops at once, appending nothing. -/
lemma secant_go_slope_stop (f : ℚ → ℚ) (tol : ℚ) (maxIter : ℕ) (xp xi : ℚ)
    (it fuel : ℕ) (h : |f xi - f xp| < eps) :
    secant_go f tol maxIter xp xi it (fuel + 1) = ([], []) := by
  simp [secant_go, h]

/-- C7 counterexample: on the constant function 1 the secant slope guard
|f(x1) - f(x0)| < 1e-10 fires on the very first iteration, yet
secant_method returns an empty record list — the singularity is not
recorded as any diagnostic field or remark. -/
theorem c7_counterexample :
    |constOne 1 - constOne 0| < eps ∧
      secant_method constOne 0 1 (1 / 1000) 100 = ([], []) := by
  constructor
  · norm_num [constOne, eps]
  · show secant_go constOne (1 / 1000) 100 0 1 0 (99 + 1) = ([], [])
    exact secant_go_slope_stop constOne (1 / 1000) 100 0 1 0 99 (by norm_num [constOne, eps])

/-- C7 (amended): on a numerical singularity both trajectories terminate
early without a root and without propagating a failure; Newton-Raphson
records the stall as a record whose ea field is None, while the secant
method terminates without appending any record for the aborted iteration. -/
theorem c7_amended_singularity_guards (f df g : ℚ → ℚ) (tol tolS : ℚ)
    (maxIter maxIterS : ℕ) (x xp xi : ℚ) (it itS fuel fuelS : ℕ)
    (hflat : |df x| < eps) (hslope : |g xi - g xp| < eps) :
    newton_go f df tol maxIter x it (fuel + 1) = ([], [newtonStallRec f df x it]) ∧
    (newtonStallRec f df x it).ea = none ∧
    secant_go g tolS maxIterS xp xi itS (fuelS + 1) = ([], []) :=
  ⟨by simp [newton_go, hflat], rfl, secant_go_slope_stop g tolS maxIterS xp xi itS fuelS hslope⟩

/-- Witness for the amended C7: Newton at x = 0 on x² - 4 (flat derivative)
and the secant method on the constant function 1. -/
theorem c7_witness :
    |dsq4 0| < eps ∧ |constOne 1 - constOne 0| < eps ∧
    (newton_go sq4 dsq4 (1 / 1000) 100 0 0 (0 + 1) = ([], [newtonStallRec sq4 dsq4 0 0]) ∧
      (newtonStallRec sq4 dsq4 0 0).ea = none ∧
      secant_go constOne (1 / 1000) 100 0 1 0 (0 + 1) = ([], [])) :=
  ⟨by norm_num [dsq4, eps], by norm_num [constOne, eps],
    c7_amended_singularity_guards sq4 dsq4 constOne (1 / 1000) (1 / 1000) 100 100 0 0 1 0 0 0 0
      (by norm_num [dsq4, eps]) (by norm_num [constOne, eps])⟩

/-! ## Claims about bisection's iteration bounds -/

/-- Record count is bounded by the fuel, at most one root is accumulated,
and a root never appears without a record. -/
lemma bisection_go_bounds (f : ℚ → ℚ) (tol : ℚ) :
    ∀ fuel a b xOld it,
      (bisection_go f tol a b xOld it fuel).2.length ≤ fuel ∧
      (bisection_go f tol a b xOld it fuel).1.length ≤ 1 ∧
      (bisection_go f tol a b xOld it fuel).1.length ≤
        (bisection_go f tol a b xOld it fuel).2.length := by
  intro fuel
  induction fuel with
  | zero => intro a b xOld it; simp [bisection_go]
  | succ n ih =>
    intro a b xOld it
    simp only [bisection_go]
    split
    · simp
    · split
      · simp
      · have h := ih (bisectLo f a b) (bisectHi f a b) (some ((a + b) / 2)) (it + 1)
        simp only [List.length_cons]
        exact ⟨Nat.succ_le_succ h.1, Nat.le_trans h.2.1 (by omega),
          Nat.le_trans h.2.2 (Nat.le_succ _)⟩

/-- Any root accumulated by the bisection loop is the rounded midpoint of a
bracket state at which one of the two acceptance tests passed. -/
lemma bisection_go_root_mem (f : ℚ → ℚ) (tol : ℚ) :
    ∀ fuel a b xOld it, ∀ r ∈ (bisection_go f tol a b xOld it fuel).1,
      ∃ a' b' xo it', r = pyround 7 ((a' + b') / 2) ∧
        ((bisectErr a' b' xo < tol ∧ 1 < it') ∨ |f ((a' + b') / 2)| < eps) := by
  intro fuel
  induction fuel with
  | zero => intro a b xOld it r hr; simp [bisection_go] at hr
  | succ n ih =>
    intro a b xOld it r hr
    simp only [bisection_go] at hr
    by_cases h1 : bisectErr a b xOld < tol ∧ 1 < it
    · rw [if_pos h1] at hr
      simp only [List.mem_singleton] at hr
      exact ⟨a, b, xOld, it, hr, Or.inl h1⟩
    · rw [if_neg h1] at hr
      by_cases h2 : |f ((a + b) / 2)| < eps
      · rw [if_pos h2] at hr
        simp only [List.mem_singleton] at hr
        exact ⟨a, b, xOld, it, hr, Or.inr h2⟩
      · rw [if_neg h2] at hr
        exact ih (bisectLo f a b) (bisectHi f a b) (some ((a + b) / 2)) (it + 1) r hr

/-- C8: for a bracket with f(a)·f(b) < 0, bisection appends at most max_iter
records and returns at most one root (no de-duplication arises); any accepted
root is the rounded midpoint of a bracket state at which the relative-error
test (with at least one prior iteration) or the residual test
|f(c)| < 1e-10 passed. -/
theorem c8_bisection_bracket_properties (f : ℚ → ℚ) (a b tol : ℚ) (maxIter : ℕ)
    (h : f a * f b < 0) :
    (bisection_method f a b tol maxIter).2.length ≤ maxIter ∧
    (bisection_method f a b tol maxIter).1.length ≤ 1 ∧
    ∀ r ∈ (bisection_method f a b tol maxIter).1,
      ∃ a' b' xo it', r = pyround 7 ((a' + b') / 2) ∧
        ((bisectErr a' b' xo < tol ∧ 1 < it') ∨ |f ((a' + b') / 2)| < eps) := by
  have hng : ¬ f a * f b > 0 := not_lt.mpr (le_of_lt h)
  unfold bisection_method
  rw [if_neg hng]
  exact ⟨(bisection_go_bounds f tol maxIter a b none 1).1,
    (bisection_go_bounds f tol maxIter a b none 1).2.1,
    bisection_go_root_mem f tol maxIter a b none 1⟩

/-- Witness for C8: f(x) = x² - 4 on the bracket [0, 10]. -/
theorem c8_witness :
    sq4 0 * sq4 10 < 0 ∧
    ((bisection_method sq4 0 10 (1 / 2) 5).2.length ≤ 5 ∧
    (bisection_method sq4 0 10 (1 / 2) 5).1.length ≤ 1 ∧
    ∀ r ∈ (bisection_method sq4 0 10 (1 / 2) 5).1,
      ∃ a' b' xo it', r = pyround 7 ((a' + b') / 2) ∧
        ((bisectErr a' b' xo < 1 / 2 ∧ 1 < it') ∨ |sq4 ((a' + b') / 2)| < eps)) :=
  ⟨by norm_num [sq4],
    c8_bisection_bracket_properties sq4 0 10 (1 / 2) 5 (by norm_num [sq4])⟩

/-- C10: newton_raphson's result does not depend on num_guesses — the
parameter is accepted but never used. -/
theorem c10_newton_num_guesses_unused (f df : ℚ → ℚ) (x0 tol : ℚ)
    (maxIter n1 n2 : ℕ) :
    newton_raphson f df x0 tol maxIter n1 = newton_raphson f df x0 tol maxIter n2 := rfl

/-! ## Regula Falsi (src/rootFinder/methods/bracketing/regula_falsi.py) -/

/-- One row of regula falsi's iteration table.  The source tags the row with
the subinterval bounds formatted as a string and formats f(c) in scientific
notation; both are cosmetic and the numeric values are kept. -/
structure RRec where
  subLeft : ℚ
  subRight : ℚ
  iteration : ℕ
  a : ℚ
  b : ℚ
  c : ℚ
  fc : ℚ
  deriving DecidableEq

/-- The false-position point c = (left·f(right) - right·f(left)) /
(f(right) - f(left)) (regula_falsi.py line 33). -/
def regulaC (left right fl fr : ℚ) : ℚ := (left * fr - right * fl) / (fr - fl)

/-- The table row appended by one false-position iteration
(regula_falsi.py lines 36-43). -/
def regulaRec (f : ℚ → ℚ) (x1 x2 left right fl fr : ℚ) (it : ℕ) : RRec :=
  { subLeft := x1, subRight := x2, iteration := it + 1,
    a := pyround 6 left, b := pyround 6 right,
    c := pyround 6 (regulaC left right fl fr), fc := f (regulaC left right fl fr) }

/-- Bracket update (regula_falsi.py lines 57-62): the endpoint whose function
value shares the sign of f(c) moves to c. -/
def regulaNewLeft (left c fl fc : ℚ) : ℚ := if fl * fc < 0 then left else c

/-- Bracket update, right endpoint. -/
def regulaNewRight (right c fl fc : ℚ) : ℚ := if fl * fc < 0 then c else right

/-- Bracket update, cached f(left). -/
def regulaNewFl (fl fc : ℚ) : ℚ := if fl * fc < 0 then fl else fc

/-- Bracket update, cached f(right). -/
def regulaNewFr (fr fl fc : ℚ) : ℚ := if fl * fc < 0 then fc else fr

/-- The per-subinterval false-position loop (regula_falsi.py lines 31-66);
fuel counts the remaining passes of `for iteration in range(max_iter)`.
roots is the global root list accumulated so far (de-duplication compares
against every root found in the whole run). -/
def regula_go (f : ℚ → ℚ) (tol x1 x2 : ℚ) (roots : List ℚ) (left right fl fr : ℚ)
    (it : ℕ) : ℕ → List ℚ × List RRec
  | 0 => (roots, [])
  | fuel + 1 =>
    if |f (regulaC left right fl fr)| < tol then
      ((if ∀ r ∈ roots, ¬ |regulaC left right fl fr - r| < tol then
          roots ++ [pyround 6 (regulaC left right fl fr)]
        else roots),
        [regulaRec f x1 x2 left right fl fr it])
    else if |regulaNewRight right (regulaC left right fl fr) fl (f (regulaC left right fl fr)) -
        regulaNewLeft left (regulaC left right fl fr) fl (f (regulaC left right fl fr))| < tol then
      (roots, [regulaRec f x1 x2 left right fl fr it])
    else
      ((regula_go f tol x1 x2 roots
          (regulaNewLeft left (regulaC left right fl fr) fl (f (regulaC left right fl fr)))
          (regulaNewRight right (regulaC left right fl fr) fl (f (regulaC left right fl fr)))
          (regulaNewFl fl (f (regulaC left right fl fr)))
          (regulaNewFr fr fl (f (regulaC left right fl fr))) (it + 1) fuel).1,
        regulaRec f x1 x2 left right fl fr it ::
          (regula_go f tol x1 x2 roots
            (regulaNewLeft left (regulaC left right fl fr) fl (f (regulaC left right fl fr)))
            (regulaNewRight right (regulaC left right fl fr) fl (f (regulaC left right fl fr)))
            (regulaNewFl fl (f (regulaC left right fl fr)))
            (regulaNewFr fr fl (f (regulaC left right fl fr))) (it + 1) fuel).2)

/-- One pass of the outer subinterval scan (regula_falsi.py lines 19-29):
skip the i-th subinterval when f(x1)·f(x2) ≥ 0, else run false position on
it, growing the global root list and appending its records. -/
def regulaScanStep (f : ℚ → ℚ) (a size tol : ℚ) (maxIter : ℕ)
    (acc : List ℚ × List RRec) (i : ℕ) : List ℚ × List RRec :=
  if f (a + i * size) * f (a + i * size + size) ≥ 0 then acc
  else
    ((regula_go f tol (a + i * size) (a + i * size + size) acc.1
        (a + i * size) (a + i * size + size)
        (f (a + i * size)) (f (a + i * size + size)) 0 maxIter).1,
      acc.2 ++ (regula_go f tol (a + i * size) (a + i * size + size) acc.1
        (a + i * size) (a + i * size + size)
        (f (a + i * size)) (f (a + i * size + size)) 0 maxIter).2)

/-- regula_falsi(f, a, b, tol, max_iter, num_intervals) from
regula_falsi.py. -/
def regula_falsi (f : ℚ → ℚ) (a b tol : ℚ) (maxIter numIntervals : ℕ) :
    List ℚ × List RRec :=
  (List.range numIntervals).foldl
    (regulaScanStep f a ((b - a) / (numIntervals : ℚ)) tol maxIter) ([], [])

/-- The identity function, used as a simple objective by witnesses. -/
def idQ : ℚ → ℚ := fun x => x

/-- C4: a subinterval [x1, x2] of the equal partition is iterated on exactly
when f(x1)·f(x2) < 0; within an attempted subinterval the iteration stops
when |f(c)| < tol — accepting c only if it differs by at least tol from every
previously accepted root — or when the updated bracket width is below tol,
or when the per-subinterval iteration budget runs out. -/
theorem c4_regula_falsi_scan_and_stops (f : ℚ → ℚ) (tol : ℚ) (maxIter : ℕ)
    (a1 size1 : ℚ) (i1 : ℕ) (acc1 : List ℚ × List RRec)
    (a2 size2 : ℚ) (i2 : ℕ) (acc2 : List ℚ × List RRec)
    (x1 x2 l1 r1 fl1 fr1 : ℚ) (roots1 : List ℚ) (it1 fuel1 : ℕ)
    (x3 x4 l2 r2 fl2 fr2 : ℚ) (roots2 : List ℚ) (it2 fuel2 : ℕ)
    (x5 x6 l3 r3 fl3 fr3 : ℚ) (roots3 : List ℚ) (it3 fuel3 : ℕ)
    (hskip : 0 ≤ f (a1 + i1 * size1) * f (a1 + i1 * size1 + size1))
    (henter : f (a2 + i2 * size2) * f (a2 + i2 * size2 + size2) < 0)
    (hfc : |f (regulaC l1 r1 fl1 fr1)| < tol)
    (hfc2 : ¬ |f (regulaC l2 r2 fl2 fr2)| < tol)
    (hw2 : |regulaNewRight r2 (regulaC l2 r2 fl2 fr2) fl2 (f (regulaC l2 r2 fl2 fr2)) -
      regulaNewLeft l2 (regulaC l2 r2 fl2 fr2) fl2 (f (regulaC l2 r2 fl2 fr2))| < tol)
    (hfc3 : ¬ |f (regulaC l3 r3 fl3 fr3)| < tol)
    (hw3 : ¬ |regulaNewRight r3 (regulaC l3 r3 fl3 fr3) fl3 (f (regulaC l3 r3 fl3 fr3)) -
      regulaNewLeft l3 (regulaC l3 r3 fl3 fr3) fl3 (f (regulaC l3 r3 fl3 fr3))| < tol) :
    regulaScanStep f a1 size1 tol maxIter acc1 i1 = acc1 ∧
    regulaScanStep f a2 size2 tol maxIter acc2 i2 =
      ((regula_go f tol (a2 + i2 * size2) (a2 + i2 * size2 + size2) acc2.1
          (a2 + i2 * size2) (a2 + i2 * size2 + size2)
          (f (a2 + i2 * size2)) (f (a2 + i2 * size2 + size2)) 0 maxIter).1,
        acc2.2 ++ (regula_go f tol (a2 + i2 * size2) (a2 + i2 * size2 + size2) acc2.1
          (a2 + i2 * size2) (a2 + i2 * size2 + size2)
          (f (a2 + i2 * size2)) (f (a2 + i2 * size2 + size2)) 0 maxIter).2) ∧
    regula_go f tol x1 x2 roots1 l1 r1 fl1 fr1 it1 (fuel1 + 1) =
      ((if ∀ r ∈ roots1, tol ≤ |regulaC l1 r1 fl1 fr1 - r| then
          roots1 ++ [pyround 6 (regulaC l1 r1 fl1 fr1)]
        else roots1), [regulaRec f x1 x2 l1 r1 fl1 fr1 it1]) ∧
    regula_go f tol x3 x4 roots2 l2 r2 fl2 fr2 it2 (fuel2 + 1) =
      (roots2, [regulaRec f x3 x4 l2 r2 fl2 fr2 it2]) ∧
    regula_go f tol x5 x6 roots3 l3 r3 fl3 fr3 it3 (fuel3 + 1) =
      ((regula_go f tol x5 x6 roots3
          (regulaNewLeft l3 (regulaC l3 r3 fl3 fr3) fl3 (f (regulaC l3 r3 fl3 fr3)))
          (regulaNewRight r3 (regulaC l3 r3 fl3 fr3) fl3 (f (regulaC l3 r3 fl3 fr3)))
          (regulaNewFl fl3 (f (regulaC l3 r3 fl3 fr3)))
          (regulaNewFr fr3 fl3 (f (regulaC l3 r3 fl3 fr3))) (it3 + 1) fuel3).1,
        regulaRec f x5 x6 l3 r3 fl3 fr3 it3 ::
          (regula_go f tol x5 x6 roots3
            (regulaNewLeft l3 (regulaC l3 r3 fl3 fr3) fl3 (f (regulaC l3 r3 fl3 fr3)))
            (regulaNewRight r3 (regulaC l3 r3 fl3 fr3) fl3 (f (regulaC l3 r3 fl3 fr3)))
            (regulaNewFl fl3 (f (regulaC l3 r3 fl3 fr3)))
            (regulaNewFr fr3 fl3 (f (regulaC l3 r3 fl3 fr3))) (it3 + 1) fuel3).2) ∧
    regula_go f tol x1 x2 roots1 l1 r1 fl1 fr1 it1 0 = (roots1, []) := by
  refine ⟨?_, ?_, ?_, ?_, ?_, rfl⟩
  · unfold regulaScanStep
    rw [if_pos hskip]
  · unfold regulaScanStep
    rw [if_neg (not_le.mpr henter)]
  · simp only [regula_go]
    rw [if_pos hfc]
    simp only [not_lt]
  · simp only [regula_go]
    rw [if_neg hfc2, if_pos hw2]
  · simp only [regula_go]
    rw [if_neg hfc3, if_neg hw3]

/-- Witness for C4 on f = id with tol = 1/10: subinterval [1, 2] is skipped,
subinterval [-1, 1] is entered; the inner loop stops by the residual test at
bracket (-1, 1), by the width test at bracket (10, 201/20), continues at
bracket (0, 10), and stops with exhausted fuel. -/
theorem c4_witness :
    (0 ≤ idQ (1 + ((0 : ℕ) : ℚ) * 1) * idQ (1 + ((0 : ℕ) : ℚ) * 1 + 1) ∧
     idQ (-1 + ((0 : ℕ) : ℚ) * 2) * idQ (-1 + ((0 : ℕ) : ℚ) * 2 + 2) < 0 ∧
     |idQ (regulaC (-1) 1 (-1) 1)| < 1 / 10 ∧
     ¬ |idQ (regulaC 10 (201 / 20) (-1) 1)| < 1 / 10 ∧
     |regulaNewRight (201 / 20) (regulaC 10 (201 / 20) (-1) 1) (-1)
         (idQ (regulaC 10 (201 / 20) (-1) 1)) -
       regulaNewLeft 10 (regulaC 10 (201 / 20) (-1) 1) (-1)
         (idQ (regulaC 10 (201 / 20) (-1) 1))| < 1 / 10 ∧
     ¬ |idQ (regulaC 0 10 (-1) 1)| < 1 / 10 ∧
     ¬ |regulaNewRight 10 (regulaC 0 10 (-1) 1) (-1) (idQ (regulaC 0 10 (-1) 1)) -
       regulaNewLeft 0 (regulaC 0 10 (-1) 1) (-1) (idQ (regulaC 0 10 (-1) 1))| < 1 / 10) ∧
    (regulaScanStep idQ 1 1 (1 / 10) 100 ([], []) 0 = ([], []) ∧
    regulaScanStep idQ (-1) 2 (1 / 10) 100 ([], []) 0 =
      ((regula_go idQ (1 / 10) (-1 + ((0 : ℕ) : ℚ) * 2) (-1 + ((0 : ℕ) : ℚ) * 2 + 2)
          (([], []) : List ℚ × List RRec).1
          (-1 + ((0 : ℕ) : ℚ) * 2) (-1 + ((0 : ℕ) : ℚ) * 2 + 2)
          (idQ (-1 + ((0 : ℕ) : ℚ) * 2)) (idQ (-1 + ((0 : ℕ) : ℚ) * 2 + 2)) 0 100).1,
        (([], []) : List ℚ × List RRec).2 ++
          (regula_go idQ (1 / 10) (-1 + ((0 : ℕ) : ℚ) * 2) (-1 + ((0 : ℕ) : ℚ) * 2 + 2)
            (([], []) : List ℚ × List RRec).1
            (-1 + ((0 : ℕ) : ℚ) * 2) (-1 + ((0 : ℕ) : ℚ) * 2 + 2)
            (idQ (-1 + ((0 : ℕ) : ℚ) * 2)) (idQ (-1 + ((0 : ℕ) : ℚ) * 2 + 2)) 0 100).2) ∧
    regula_go idQ (1 / 10) (-1) 1 [] (-1) 1 (-1) 1 0 (0 + 1) =
      ((if ∀ r ∈ ([] : List ℚ), 1 / 10 ≤ |regulaC (-1) 1 (-1) 1 - r| then
          [] ++ [pyround 6 (regulaC (-1) 1 (-1) 1)]
        else []), [regulaRec idQ (-1) 1 (-1) 1 (-1) 1 0]) ∧
    regula_go idQ (1 / 10) 10 11 [] 10 (201 / 20) (-1) 1 0 (0 + 1) =
      ([], [regulaRec idQ 10 11 10 (201 / 20) (-1) 1 0]) ∧
    regula_go idQ (1 / 10) 0 10 [] 0 10 (-1) 1 0 (0 + 1) =
      ((regula_go idQ (1 / 10) 0 10 []
          (regulaNewLeft 0 (regulaC 0 10 (-1) 1) (-1) (idQ (regulaC 0 10 (-1) 1)))
          (regulaNewRight 10 (regulaC 0 10 (-1) 1) (-1) (idQ (regulaC 0 10 (-1) 1)))
          (regulaNewFl (-1) (idQ (regulaC 0 10 (-1) 1)))
          (regulaNewFr 1 (-1) (idQ (regulaC 0 10 (-1) 1))) (0 + 1) 0).1,
        regulaRec idQ 0 10 0 10 (-1) 1 0 ::
          (regula_go idQ (1 / 10) 0 10 []
            (regulaNewLeft 0 (regulaC 0 10 (-1) 1) (-1) (idQ (regulaC 0 10 (-1) 1)))
            (regulaNewRight 10 (regulaC 0 10 (-1) 1) (-1) (idQ (regulaC 0 10 (-1) 1)))
            (regulaNewFl (-1) (idQ (regulaC 0 10 (-1) 1)))
            (regulaNewFr 1 (-1) (idQ (regulaC 0 10 (-1) 1))) (0 + 1) 0).2) ∧
    regula_go idQ (1 / 10) (-1) 1 [] (-1) 1 (-1) 1 0 0 = ([], [])) :=
  ⟨⟨by norm_num [idQ], by norm_num [idQ], by norm_num [idQ, regulaC],
    by norm_num [idQ, regulaC, abs_lt],
    by norm_num [idQ, regulaC, regulaNewLeft, regulaNewRight, abs_lt],
    by norm_num [idQ, regulaC, abs_lt],
    by norm_num [idQ, regulaC, regulaNewLeft, regulaNewRight, abs_lt]⟩,
   c4_regula_falsi_scan_and_stops idQ (1 / 10) 100 1 1 0 ([], []) (-1) 2 0 ([], [])
    (-1) 1 (-1) 1 (-1) 1 [] 0 0 10 11 10 (201 / 20) (-1) 1 [] 0 0
    0 10 0 10 (-1) 1 [] 0 0
    (by norm_num [idQ]) (by norm_num [idQ]) (by norm_num [idQ, regulaC])
    (by norm_num [idQ, regulaC, abs_lt])
    (by norm_num [idQ, regulaC, regulaNewLeft, regulaNewRight, abs_lt])
    (by norm_num [idQ, regulaC, abs_lt])
    (by norm_num [idQ, regulaC, regulaNewLeft, regulaNewRight, abs_lt])⟩

/-! ## Graphical method (src/rootFinder/methods/basic/graphical.py) -/

/-- One row of the graphical method's table: an ordinary sampled (x, f(x))
pair, or the synthetic trailing row whose x column is the text "Period" and
whose f(x) column carries the estimated period (formatted as a string in the
source; the numeric value is kept). -/
inductive GRec where
  | sample (x fx : ℚ)
  | periodInfo (period : ℚ)
  deriving DecidableEq

/-- The sampling grid np.arange(x_min, x_max + step/2, step): the values
x_min + k·step while below the stop x_max + step/2 (with exact rational
arithmetic the repeated-addition walk generates np.arange's list).  Fuel
overshoots the count by one so that for step > 0 the stop test, not the
fuel, ends the walk. -/
def gridFrom (x stop step : ℚ) : ℕ → List ℚ
  | 0 => []
  | fuel + 1 => if x < stop then x :: gridFrom (x + step) stop step fuel else []

/-- Fuel bound for the grid walk. -/
def gridFuel (xMin xMax step : ℚ) : ℕ :=
  (qceil ((xMax + step / 2 - xMin) / step)).toNat + 1

/-- The full sampling grid. -/
def mkGrid (xMin xMax step : ℚ) : List ℚ :=
  gridFrom xMin (xMax + step / 2) step (gridFuel xMin xMax step)

/-- The sampling loop of graphical.py (lines 28-41) from the second grid
point on, carrying the previous point (xPrev, yPrev = f(xPrev)): each point
appends its table row, and on a sign change y[i-1]·y[i] ≤ 0 prepends the
linearly interpolated root and collects the grid index i of the crossing.
Returns (roots, table rows, crossing indices). -/
def graph_go (f : ℚ → ℚ) (xPrev yPrev : ℚ) (i : ℕ) :
    List ℚ → List ℚ × List GRec × List ℕ
  | [] => ([], [], [])
  | x :: rest =>
    if yPrev * f x ≤ 0 then
      (pyround 6 (xPrev - yPrev * (x - xPrev) / (f x - yPrev)) ::
          (graph_go f x (f x) (i + 1) rest).1,
        GRec.sample (pyround 3 x) (pyround 8 (f x)) :: (graph_go f x (f x) (i + 1) rest).2.1,
        i :: (graph_go f x (f x) (i + 1) rest).2.2)
    else
      ((graph_go f x (f x) (i + 1) rest).1,
        GRec.sample (pyround 3 x) (pyround 8 (f x)) :: (graph_go f x (f x) (i + 1) rest).2.1,
        (graph_go f x (f x) (i + 1) rest).2.2)

/-- The whole sampling loop: the first grid point (i = 0) only appends its
table row — the crossing test starts at i > 0. -/
def graph_scan (f : ℚ → ℚ) : List ℚ → List ℚ × List GRec × List ℕ
  | [] => ([], [], [])
  | x0 :: rest =>
    ((graph_go f x0 (f x0) 1 rest).1,
      GRec.sample (pyround 3 x0) (pyround 8 (f x0)) :: (graph_go f x0 (f x0) 1 rest).2.1,
      (graph_go f x0 (f x0) 1 rest).2.2)

/-- np.diff on the crossing indices, as exact rationals. -/
def diffs : List ℕ → List ℚ
  | a :: b :: rest => ((b : ℚ) - (a : ℚ)) :: diffs (b :: rest)
  | _ => []

/-- np.mean. -/
def mean (xs : List ℚ) : ℚ := xs.sum / (xs.length : ℚ)

/-- np.std squared: the population variance. -/
def variancePop (xs : List ℚ) : ℚ :=
  ((xs.map fun v => (v - mean xs) ^ 2).sum) / (xs.length : ℚ)

/-- The comparison np.std(xs) < c, stated without square roots: the standard
deviation is the square root of variancePop and is nonnegative, so
std < c iff 0 < c and variancePop < c². -/
def stdLt (xs : List ℚ) (c : ℚ) : Prop := 0 < c ∧ variancePop xs < c ^ 2

instance stdLtDec (xs : List ℚ) (c : ℚ) : Decidable (stdLt xs c) :=
  inferInstanceAs (Decidable (_ ∧ _))

/-- The body of graphical_method after the step guard (graphical.py lines
19-63): sample the grid, then the periodicity heuristic — with more than 4
crossings and std < 0.1·mean of the index gaps, declare periodic with
period = mean gap × step and append the synthetic trailing row. -/
def graphicalRun (f : ℚ → ℚ) (xMin xMax step : ℚ) :
    List ℚ × List GRec × Bool × Option ℚ :=
  if 4 < (graph_scan f (mkGrid xMin xMax step)).2.2.length then
    if stdLt (diffs (graph_scan f (mkGrid xMin xMax step)).2.2)
        (mean (diffs (graph_scan f (mkGrid xMin xMax step)).2.2) * (1 / 10)) then
      ((graph_scan f (mkGrid xMin xMax step)).1,
        (graph_scan f (mkGrid xMin xMax step)).2.1 ++
          [GRec.periodInfo (mean (diffs (graph_scan f (mkGrid xMin xMax step)).2.2) * step)],
        true,
        some (mean (diffs (graph_scan f (mkGrid xMin xMax step)).2.2) * step))
    else
      ((graph_scan f (mkGrid xMin xMax step)).1,
        (graph_scan f (mkGrid xMin xMax step)).2.1, false, none)
  else
    ((graph_scan f (mkGrid xMin xMax step)).1,
      (graph_scan f (mkGrid xMin xMax step)).2.1, false, none)

/-- graphical_method(f, x_min, x_max, step) from graphical.py; a
non-positive step raises ValueError("Step size must be positive"). -/
def graphical_method (f : ℚ → ℚ) (xMin xMax step : ℚ) :
    Except String (List ℚ × List GRec × Bool × Option ℚ) :=
  if step ≤ 0 then Except.error "Step size must be positive"
  else Except.ok (graphicalRun f xMin xMax step)

/-- C5: graphical_method declares the function periodic exactly when more
than 4 sign-change grid indices are collected and the standard deviation of
the consecutive-crossing index gaps is below 0.1 times their mean; when
periodic it returns period = mean gap × step and appends a single synthetic
trailing record carrying the period, otherwise it returns is_periodic =
false with period = None and no synthetic record. -/
theorem c5_graphical_periodicity (f : ℚ → ℚ) (xMin xMax step : ℚ) (h : 0 < step) :
    graphical_method f xMin xMax step = Except.ok (graphicalRun f xMin xMax step) ∧
    ((graphicalRun f xMin xMax step).2.2.1 = true ↔
      4 < (graph_scan f (mkGrid xMin xMax step)).2.2.length ∧
        stdLt (diffs (graph_scan f (mkGrid xMin xMax step)).2.2)
          (mean (diffs (graph_scan f (mkGrid xMin xMax step)).2.2) * (1 / 10))) ∧
    (graphicalRun f xMin xMax step).2.2.2 =
      (if (graphicalRun f xMin xMax step).2.2.1 then
        some (mean (diffs (graph_scan f (mkGrid xMin xMax step)).2.2) * step)
      else none) ∧
    (graphicalRun f xMin xMax step).2.1 =
      (if (graphicalRun f xMin xMax step).2.2.1 then
        (graph_scan f (mkGrid xMin xMax step)).2.1 ++
          [GRec.periodInfo (mean (diffs (graph_scan f (mkGrid xMin xMax step)).2.2) * step)]
      else (graph_scan f (mkGrid xMin xMax step)).2.1) := by
  refine ⟨by unfold graphical_method; rw [if_neg (not_le.mpr h)], ?_⟩
  unfold graphicalRun
  by_cases h1 : 4 < (graph_scan f (mkGrid xMin xMax step)).2.2.length
  · by_cases h2 : stdLt (diffs (graph_scan f (mkGrid xMin xMax step)).2.2)
        (mean (diffs (graph_scan f (mkGrid xMin xMax step)).2.2) * (1 / 10))
    · rw [if_pos h1, if_pos h2]
      exact ⟨⟨fun _ => ⟨h1, h2⟩, fun _ => rfl⟩, rfl, rfl⟩
    · rw [if_pos h1, if_neg h2]
      exact ⟨⟨fun hf => (Bool.false_ne_true hf).elim, fun hc => (h2 hc.2).elim⟩, rfl, rfl⟩
  · rw [if_neg h1]
    exact ⟨⟨fun hf => (Bool.false_ne_true hf).elim, fun hc => (h1 hc.1).elim⟩, rfl, rfl⟩

/-- Witness for C5 on f = id over [-1, 1] with step 1 (two crossings, so not
periodic). -/
theorem c5_witness :
    (0 : ℚ) < 1 ∧
    (graphical_method idQ (-1) 1 1 = Except.ok (graphicalRun idQ (-1) 1 1) ∧
    ((graphicalRun idQ (-1) 1 1).2.2.1 = true ↔
      4 < (graph_scan idQ (mkGrid (-1) 1 1)).2.2.length ∧
        stdLt (diffs (graph_scan idQ (mkGrid (-1) 1 1)).2.2)
          (mean (diffs (graph_scan idQ (mkGrid (-1) 1 1)).2.2) * (1 / 10))) ∧
    (graphicalRun idQ (-1) 1 1).2.2.2 =
      (if (graphicalRun idQ (-1) 1 1).2.2.1 then
        some (mean (diffs (graph_scan idQ (mkGrid (-1) 1 1)).2.2) * 1)
      else none) ∧
    (graphicalRun idQ (-1) 1 1).2.1 =
      (if (graphicalRun idQ (-1) 1 1).2.2.1 then
        (graph_scan idQ (mkGrid (-1) 1 1)).2.1 ++
          [GRec.periodInfo (mean (diffs (graph_scan idQ (mkGrid (-1) 1 1)).2.2) * 1)]
      else (graph_scan idQ (mkGrid (-1) 1 1)).2.1)) :=
  ⟨by norm_num, c5_graphical_periodicity idQ (-1) 1 1 (by norm_num)⟩

/-! ## Incremental search (src/rootFinder/methods/basic/incremental.py) -/

/-- Outcome of evaluating the black-box objective at a point, as the source
observes it: a finite float, a NaN/±inf value, or a raised exception. -/
inductive PyVal where
  | fin (q : ℚ)
  | nonfin
  | exn
  deriving DecidableEq

/-- A table cell that is either numeric or a placeholder text. -/
inductive IncVal where
  | num (q : ℚ)
  | txt (s : String)
  deriving DecidableEq

/-- One row of incremental search's table. -/
structure IncRec where
  i : ℕ
  xi : ℚ
  fxi : IncVal
  prodF : IncVal
  remark : String
  deriving DecidableEq

/-- The row appended when evaluating f raises (incremental.py lines 47-55). -/
def incFailRec (it : ℕ) (x : ℚ) : IncRec :=
  { i := it, xi := pyround 3 x,
    fxi := IncVal.txt "Unable to evaluate function",
    prodF := IncVal.txt "Unable to evaluate function",
    remark := "Function evaluation failed at this point" }

/-- The row appended when f(x) or f(x+step) is NaN/infinite (incremental.py
lines 16-29): the f(xi) cell stays numeric when f(x) itself is finite. -/
def incUndefRec (f : ℚ → PyVal) (it : ℕ) (x : ℚ) : IncRec :=
  { i := it, xi := pyround 3 x,
    fxi := match f x with
      | PyVal.fin v => IncVal.num (pyround 6 v)
      | _ => IncVal.txt "Undefined or Infinite",
    prodF := IncVal.txt "Undefined or Infinite",
    remark := "Function is undefined or infinite at this point" }

/-- The row appended when both samples are finite (incremental.py lines
19-29). -/
def incNormalRec (it : ℕ) (x v w : ℚ) : IncRec :=
  { i := it, xi := pyround 3 x, fxi := IncVal.num (pyround 6 v),
    prodF := IncVal.num (pyround 6 (v * w)),
    remark := if 0 < v * w then "No root in this interval"
      else "A root exists in this interval" }

/-- The interpolated root (incremental.py lines 35-39): midpoint fallback
when the slope magnitude is below 1e-10.  On finite rational samples the
subsequent NaN/inf validity check of the source always passes, so the root
is always appended on the sign-change path. -/
def incRoot (x step v w : ℚ) : ℚ :=
  if |w - v| < eps then (x + (x + step)) / 2 else x - step * v / (w - v)

/-- The scanning while-loop of incremental.py (lines 9-58): at each step
with x ≤ b, a raise from either sample appends the failure row and the scan
continues at x + step; a NaN/inf sample appends the undefined row with no
root attempt; two finite samples append the normal row and, on
product ≤ 0, the interpolated root. -/
def incremental_go (f : ℚ → PyVal) (b step : ℚ) (x : ℚ) (it : ℕ) :
    ℕ → List ℚ × List IncRec
  | 0 => ([], [])
  | fuel + 1 =>
    if x ≤ b then
      match f x, f (x + step) with
      | PyVal.exn, _ =>
        ((incremental_go f b step (x + step) (it + 1) fuel).1,
          incFailRec it x :: (incremental_go f b step (x + step) (it + 1) fuel).2)
      | _, PyVal.exn =>
        ((incremental_go f b step (x + step) (it + 1) fuel).1,
          incFailRec it x :: (incremental_go f b step (x + step) (it + 1) fuel).2)
      | PyVal.fin v, PyVal.fin w =>
        if v * w ≤ 0 then
          (pyround 6 (incRoot x step v w) :: (incremental_go f b step (x + step) (it + 1) fuel).1,
            incNormalRec it x v w :: (incremental_go f b step (x + step) (it + 1) fuel).2)
        else
          ((incremental_go f b step (x + step) (it + 1) fuel).1,
            incNormalRec it x v w :: (incremental_go f b step (x + step) (it + 1) fuel).2)
      | _, _ =>
        ((incremental_go f b step (x + step) (it + 1) fuel).1,
          incUndefRec f it x :: (incremental_go f b step (x + step) (it + 1) fuel).2)
    else ([], [])

/-- Fuel bound: for step > 0 the Python loop runs ⌊(b-a)/step⌋ + 1 body
passes; for step ≤ 0 (and a ≤ b) the Python loop never terminates and no
fuel is supplied. -/
def incFuel (a b step : ℚ) : ℕ :=
  if 0 < step then (qceil ((b - a) / step)).toNat + 1 else 0

/-- incremental_search(f, a, b, step) from incremental.py. -/
def incremental_search (f : ℚ → PyVal) (a b step : ℚ) : List ℚ × List IncRec :=
  incremental_go f b step a 1 (incFuel a b step)

/-- C6: at every scan step where evaluating f raises, the failure row (with
its placeholder text and failed-evaluation remark) is still appended, the
scan continues at the next step with no root added there, and no exception
escapes (incremental_go is total); a NaN/infinite sample likewise appends
the undefined-or-infinite row with no root attempt and the scan continues. -/
theorem c6_incremental_failure_tolerance (f g : ℚ → PyVal) (b step x b2 step2 y : ℚ)
    (it it2 fuel fuel2 : ℕ)
    (hx : x ≤ b)
    (hexn : f x = PyVal.exn ∨ f (x + step) = PyVal.exn)
    (hy : y ≤ b2)
    (hg1 : g y ≠ PyVal.exn) (hg2 : g (y + step2) ≠ PyVal.exn)
    (hnf : g y = PyVal.nonfin ∨ g (y + step2) = PyVal.nonfin) :
    (incremental_go f b step x it (fuel + 1) =
      ((incremental_go f b step (x + step) (it + 1) fuel).1,
        incFailRec it x :: (incremental_go f b step (x + step) (it + 1) fuel).2) ∧
      (incFailRec it x).remark = "Function evaluation failed at this point" ∧
      (incFailRec it x).fxi = IncVal.txt "Unable to evaluate function") ∧
    (incremental_go g b2 step2 y it2 (fuel2 + 1) =
      ((incremental_go g b2 step2 (y + step2) (it2 + 1) fuel2).1,
        incUndefRec g it2 y :: (incremental_go g b2 step2 (y + step2) (it2 + 1) fuel2).2) ∧
      (incUndefRec g it2 y).remark = "Function is undefined or infinite at this point") := by
  constructor
  · refine ⟨?_, rfl, rfl⟩
    rcases hexn with h | h
    · simp [incremental_go, hx, h]
    · rcases hfx : f x with v | _ | _ <;> simp [incremental_go, hx, h, hfx]
  · refine ⟨?_, rfl⟩
    rcases hnf with h | h
    · rcases hgy2 : g (y + step2) with w | _ | _
      · simp [incremental_go, hy, h, hgy2]
      · simp [incremental_go, hy, h, hgy2]
      · exact absurd hgy2 hg2
    · rcases hgy : g y with v | _ | _
      · simp [incremental_go, hy, h, hgy]
      · simp [incremental_go, hy, h, hgy]
      · exact absurd hgy hg1

/-- The objective 1/x as the scan observes it near 0: raising at 0. -/
def raisesAt0 : ℚ → PyVal := fun q => if q = 0 then PyVal.exn else PyVal.fin q

/-- The objective 1/x as numpy evaluates it at 0: a non-finite value. -/
def nonfinAt0 : ℚ → PyVal := fun q => if q = 0 then PyVal.nonfin else PyVal.fin q

/-- Witness for C6: a raise at x = 0 and a non-finite value at y = 0, both
inside the scanned range. -/
theorem c6_witness :
    ((0 : ℚ) ≤ 1 ∧ raisesAt0 0 = PyVal.exn ∧
      nonfinAt0 0 ≠ PyVal.exn ∧ nonfinAt0 (0 + 1) ≠ PyVal.exn ∧
      nonfinAt0 0 = PyVal.nonfin) ∧
    ((incremental_go raisesAt0 1 1 0 1 (2 + 1) =
      ((incremental_go raisesAt0 1 1 (0 + 1) (1 + 1) 2).1,
        incFailRec 1 0 :: (incremental_go raisesAt0 1 1 (0 + 1) (1 + 1) 2).2) ∧
      (incFailRec 1 0).remark = "Function evaluation failed at this point" ∧
      (incFailRec 1 0).fxi = IncVal.txt "Unable to evaluate function") ∧
    (incremental_go nonfinAt0 1 1 0 1 (2 + 1) =
      ((incremental_go nonfinAt0 1 1 (0 + 1) (1 + 1) 2).1,
        incUndefRec nonfinAt0 1 0 :: (incremental_go nonfinAt0 1 1 (0 + 1) (1 + 1) 2).2) ∧
      (incUndefRec nonfinAt0 1 0).remark = "Function is undefined or infinite at this point")) :=
  ⟨⟨by norm_num, by simp [raisesAt0], by simp [nonfinAt0], by simp [nonfinAt0],
      by simp [nonfinAt0]⟩,
    c6_incremental_failure_tolerance raisesAt0 nonfinAt0 1 1 0 1 1 0 1 1 2 2
      (by norm_num) (Or.inl (by simp [raisesAt0])) (by norm_num)
      (by simp [nonfinAt0]) (by simp [nonfinAt0]) (Or.inl (by simp [nonfinAt0]))⟩

/-! ## Roots never outnumber records (claim C9) -/

/-- Newton: a root is only ever appended together with its record. -/
lemma newton_go_len (f df : ℚ → ℚ) (tol : ℚ) (maxIter : ℕ) :
    ∀ fuel x it, (newton_go f df tol maxIter x it fuel).1.length ≤
      (newton_go f df tol maxIter x it fuel).2.length := by
  intro fuel
  induction fuel with
  | zero => intro x it; simp [newton_go]
  | succ n ih =>
    intro x it
    simp only [newton_go]
    split
    · simp
    · split
      · simp
      · simp only [List.length_cons]
        exact Nat.le_trans (ih (newtonNext f df x) (it + 1)) (Nat.le_succ _)

/-- Secant: a root is only ever appended together with its record. -/
lemma secant_go_len (f : ℚ → ℚ) (tol : ℚ) (maxIter : ℕ) :
    ∀ fuel xp xi it, (secant_go f tol maxIter xp xi it fuel).1.length ≤
      (secant_go f tol maxIter xp xi it fuel).2.length := by
  intro fuel
  induction fuel with
  | zero => intro xp xi it; simp [secant_go]
  | succ n ih =>
    intro xp xi it
    simp only [secant_go]
    split
    · simp
    · split
      · simp
      · simp only [List.length_cons]
        exact Nat.le_trans (ih xi (secantNext f xp xi) (it + 1)) (Nat.le_succ _)

/-- Regula falsi inner loop: the root list grows by at most the number of
appended records. -/
lemma regula_go_len (f : ℚ → ℚ) (tol x1 x2 : ℚ) :
    ∀ fuel roots left right fl fr it,
      (regula_go f tol x1 x2 roots left right fl fr it fuel).1.length ≤
        roots.length + (regula_go f tol x1 x2 roots left right fl fr it fuel).2.length := by
  intro fuel
  induction fuel with
  | zero => intro roots l r fl fr it; simp [regula_go]
  | succ n ih =>
    intro roots l r fl fr it
    simp only [regula_go]
    split
    · split <;> simp
    · split
      · simp
      · simp only [List.length_cons]
        have h := ih roots
          (regulaNewLeft l (regulaC l r fl fr) fl (f (regulaC l r fl fr)))
          (regulaNewRight r (regulaC l r fl fr) fl (f (regulaC l r fl fr)))
          (regulaNewFl fl (f (regulaC l r fl fr)))
          (regulaNewFr fr fl (f (regulaC l r fl fr))) (it + 1)
        omega

/-- One outer scan pass preserves the bound. -/
lemma regulaScanStep_len (f : ℚ → ℚ) (a size tol : ℚ) (maxIter : ℕ)
    (acc : List ℚ × List RRec) (i : ℕ) (h : acc.1.length ≤ acc.2.length) :
    (regulaScanStep f a size tol maxIter acc i).1.length ≤
      (regulaScanStep f a size tol maxIter acc i).2.length := by
  unfold regulaScanStep
  split
  · exact h
  · simp only [List.length_append]
    have hg := regula_go_len f tol (a + i * size) (a + i * size + size) maxIter acc.1
      (a + i * size) (a + i * size + size) (f (a + i * size)) (f (a + i * size + size)) 0
    omega

/-- Folding the scan over any index list preserves the bound. -/
lemma regula_foldl_len (f : ℚ → ℚ) (a size tol : ℚ) (maxIter : ℕ) :
    ∀ (l : List ℕ) (acc : List ℚ × List RRec), acc.1.length ≤ acc.2.length →
      (l.foldl (regulaScanStep f a size tol maxIter) acc).1.length ≤
        (l.foldl (regulaScanStep f a size tol maxIter) acc).2.length := by
  intro l
  induction l with
  | nil => intro acc h; simpa using h
  | cons head tail ih =>
    intro acc h
    exact ih _ (regulaScanStep_len f a size tol maxIter acc head h)

/-- Graphical scan: every interpolated root has its own sampled row. -/
lemma graph_go_len (f : ℚ → ℚ) :
    ∀ (l : List ℚ) xPrev yPrev i,
      (graph_go f xPrev yPrev i l).1.length ≤ (graph_go f xPrev yPrev i l).2.1.length := by
  intro l
  induction l with
  | nil => intro xPrev yPrev i; simp [graph_go]
  | cons x rest ih =>
    intro xPrev yPrev i
    simp only [graph_go]
    split
    · simp only [List.length_cons]
      exact Nat.succ_le_succ (ih x (f x) (i + 1))
    · simp only [List.length_cons]
      exact Nat.le_trans (ih x (f x) (i + 1)) (Nat.le_succ _)

/-- The whole sampling pass keeps roots bounded by rows. -/
lemma graph_scan_len (f : ℚ → ℚ) (l : List ℚ) :
    (graph_scan f l).1.length ≤ (graph_scan f l).2.1.length := by
  cases l with
  | nil => simp [graph_scan]
  | cons x0 rest =>
    simp only [graph_scan, List.length_cons]
    exact Nat.le_trans (graph_go_len f rest x0 (f x0) 1) (Nat.le_succ _)

/-- Incremental search: each step appends exactly one row and at most one
root. -/
lemma incremental_go_len (f : ℚ → PyVal) (b step : ℚ) :
    ∀ fuel x it, (incremental_go f b step x it fuel).1.length ≤
      (incremental_go f b step x it fuel).2.length := by
  intro fuel
  induction fuel with
  | zero => intro x it; simp [incremental_go]
  | succ n ih =>
    intro x it
    by_cases hx : x ≤ b
    · simp only [incremental_go]
      rw [if_pos hx]
      rcases h1 : f x with v | _ | _ <;> rcases h2 : f (x + step) with w | _ | _ <;>
        simp only [h1, h2, List.length_cons]
      all_goals try split
      all_goals try simp only [List.length_cons]
      all_goals first
        | exact Nat.succ_le_succ (ih (x + step) (it + 1))
        | exact Nat.le_trans (ih (x + step) (it + 1)) (Nat.le_succ _)
    · simp [incremental_go, hx]

/-- Bisection: every accumulated root is the rounded midpoint of a bracket
state at which an acceptance test passed, and that very iteration's record
is in the returned trace. -/
lemma bisection_go_root_record (f : ℚ → ℚ) (tol : ℚ) :
    ∀ fuel a b xOld it, ∀ r ∈ (bisection_go f tol a b xOld it fuel).1,
      ∃ a' b' xo it', r = pyround 7 ((a' + b') / 2) ∧
        ((bisectErr a' b' xo < tol ∧ 1 < it') ∨ |f ((a' + b') / 2)| < eps) ∧
        bisectRec f a' b' xo it' ∈ (bisection_go f tol a b xOld it fuel).2 := by
  intro fuel
  induction fuel with
  | zero => intro a b xOld it r hr; simp [bisection_go] at hr
  | succ n ih =>
    intro a b xOld it r hr
    simp only [bisection_go] at hr ⊢
    by_cases h1 : bisectErr a b xOld < tol ∧ 1 < it
    · rw [if_pos h1] at hr ⊢
      simp only [List.mem_singleton] at hr
      exact ⟨a, b, xOld, it, hr, Or.inl h1, List.mem_singleton.mpr rfl⟩
    · rw [if_neg h1] at hr ⊢
      by_cases h2 : |f ((a + b) / 2)| < eps
      · rw [if_pos h2] at hr ⊢
        simp only [List.mem_singleton] at hr
        exact ⟨a, b, xOld, it, hr, Or.inr h2, List.mem_singleton.mpr rfl⟩
      · rw [if_neg h2] at hr ⊢
        obtain ⟨a', b', xo, it', heq, htest, hmem⟩ :=
          ih (bisectLo f a b) (bisectHi f a b) (some ((a + b) / 2)) (it + 1) r hr
        exact ⟨a', b', xo, it', heq, htest, List.mem_cons_of_mem _ hmem⟩

/-- Newton: every accumulated root is the rounded update of a state at which
ea < tol passed, and that iteration's (unmarked) record is in the trace. -/
lemma newton_go_root_record (f df : ℚ → ℚ) (tol : ℚ) (maxIter : ℕ) :
    ∀ fuel x it, ∀ r ∈ (newton_go f df tol maxIter x it fuel).1,
      ∃ x' it', r = pyround 6 (newtonNext f df x') ∧ newtonEa f df x' < tol ∧
        newtonIterRec f df x' it' ∈ (newton_go f df tol maxIter x it fuel).2 := by
  intro fuel
  induction fuel with
  | zero => intro x it r hr; simp [newton_go] at hr
  | succ n ih =>
    intro x it r hr
    simp only [newton_go] at hr ⊢
    by_cases h1 : |df x| < eps
    · rw [if_pos h1] at hr
      simp at hr
    · rw [if_neg h1] at hr ⊢
      by_cases h2 : newtonEa f df x < tol
      · rw [if_pos h2] at hr ⊢
        simp only [List.mem_singleton] at hr
        exact ⟨x, it, hr, h2, List.mem_singleton.mpr rfl⟩
      · rw [if_neg h2] at hr ⊢
        obtain ⟨x', it', heq, htest, hmem⟩ := ih (newtonNext f df x) (it + 1) r hr
        exact ⟨x', it', heq, htest, List.mem_cons_of_mem _ hmem⟩

/-- Secant: every accumulated root is the rounded candidate of a state at
which the dual test passed, and that iteration's record is in the trace. -/
lemma secant_go_root_record (f : ℚ → ℚ) (tol : ℚ) (maxIter : ℕ) :
    ∀ fuel xp xi it, ∀ r ∈ (secant_go f tol maxIter xp xi it fuel).1,
      ∃ xp' xi' it', r = pyround 6 (secantNext f xp' xi') ∧
        secantEa f xp' xi' < tol ∧ |f (secantNext f xp' xi')| < tol ∧
        secantRec f xp' xi' it' ∈ (secant_go f tol maxIter xp xi it fuel).2 := by
  intro fuel
  induction fuel with
  | zero => intro xp xi it r hr; simp [secant_go] at hr
  | succ n ih =>
    intro xp xi it r hr
    simp only [secant_go] at hr ⊢
    by_cases h1 : |f xi - f xp| < eps
    · rw [if_pos h1] at hr
      simp at hr
    · rw [if_neg h1] at hr ⊢
      by_cases h2 : secantEa f xp xi < tol ∧ |f (secantNext f xp xi)| < tol
      · rw [if_pos h2] at hr ⊢
        simp only [List.mem_singleton] at hr
        exact ⟨xp, xi, it, hr, h2.1, h2.2, List.mem_singleton.mpr rfl⟩
      · rw [if_neg h2] at hr ⊢
        obtain ⟨xp', xi', it', heq, ht1, ht2, hmem⟩ :=
          ih xi (secantNext f xp xi) (it + 1) r hr
        exact ⟨xp', xi', it', heq, ht1, ht2, List.mem_cons_of_mem _ hmem⟩

/-- Regula falsi inner loop: every root beyond the carried ones comes from a
state at which |f(c)| < tol passed, with that iteration's record in the
appended trace. -/
lemma regula_go_root_record (f : ℚ → ℚ) (tol x1 x2 : ℚ) :
    ∀ fuel roots left right fl fr it,
      ∀ r ∈ (regula_go f tol x1 x2 roots left right fl fr it fuel).1,
        r ∈ roots ∨
        ∃ x1' x2' l' r' fl' fr' it', r = pyround 6 (regulaC l' r' fl' fr') ∧
          |f (regulaC l' r' fl' fr')| < tol ∧
          regulaRec f x1' x2' l' r' fl' fr' it' ∈
            (regula_go f tol x1 x2 roots left right fl fr it fuel).2 := by
  intro fuel
  induction fuel with
  | zero => intro roots l rt fl fr it r hr; left; simpa [regula_go] using hr
  | succ n ih =>
    intro roots l rt fl fr it r hr
    simp only [regula_go] at hr ⊢
    by_cases h1 : |f (regulaC l rt fl fr)| < tol
    · rw [if_pos h1] at hr ⊢
      by_cases h2 : ∀ q ∈ roots, ¬ |regulaC l rt fl fr - q| < tol
      · rw [if_pos h2] at hr
        rcases List.mem_append.mp hr with h | h
        · exact Or.inl h
        · simp only [List.mem_singleton] at h
          exact Or.inr ⟨x1, x2, l, rt, fl, fr, it, h, h1, List.mem_singleton.mpr rfl⟩
      · rw [if_neg h2] at hr
        exact Or.inl hr
    · rw [if_neg h1] at hr ⊢
      by_cases h3 : |regulaNewRight rt (regulaC l rt fl fr) fl (f (regulaC l rt fl fr)) -
          regulaNewLeft l (regulaC l rt fl fr) fl (f (regulaC l rt fl fr))| < tol
      · rw [if_pos h3] at hr
        exact Or.inl hr
      · rw [if_neg h3] at hr ⊢
        rcases ih roots
            (regulaNewLeft l (regulaC l rt fl fr) fl (f (regulaC l rt fl fr)))
            (regulaNewRight rt (regulaC l rt fl fr) fl (f (regulaC l rt fl fr)))
            (regulaNewFl fl (f (regulaC l rt fl fr)))
            (regulaNewFr fr fl (f (regulaC l rt fl fr))) (it + 1) r hr with
          h | ⟨x1', x2', l', r', fl', fr', it', heq, ht, hm⟩
        · exact Or.inl h
        · exact Or.inr ⟨x1', x2', l', r', fl', fr', it', heq, ht,
            List.mem_cons_of_mem _ hm⟩

/-- Folding the subinterval scan preserves the per-root correspondence. -/
lemma regula_foldl_root_record (f : ℚ → ℚ) (a size tol : ℚ) (maxIter : ℕ) :
    ∀ (l : List ℕ) (acc : List ℚ × List RRec),
      (∀ r ∈ acc.1, ∃ x1 x2 left right fl fr it,
          r = pyround 6 (regulaC left right fl fr) ∧
          |f (regulaC left right fl fr)| < tol ∧
          regulaRec f x1 x2 left right fl fr it ∈ acc.2) →
      ∀ r ∈ (l.foldl (regulaScanStep f a size tol maxIter) acc).1,
        ∃ x1 x2 left right fl fr it, r = pyround 6 (regulaC left right fl fr) ∧
          |f (regulaC left right fl fr)| < tol ∧
          regulaRec f x1 x2 left right fl fr it ∈
            (l.foldl (regulaScanStep f a size tol maxIter) acc).2 := by
  intro l
  induction l with
  | nil => intro acc hacc r hr; exact hacc r hr
  | cons i tail ih =>
    intro acc hacc r hr
    rw [List.foldl_cons] at hr ⊢
    refine ih (regulaScanStep f a size tol maxIter acc i) ?_ r hr
    intro q hq
    unfold regulaScanStep at hq ⊢
    by_cases hs : f (a + i * size) * f (a + i * size + size) ≥ 0
    · rw [if_pos hs] at hq ⊢
      exact hacc q hq
    · rw [if_neg hs] at hq ⊢
      rcases regula_go_root_record f tol (a + i * size) (a + i * size + size) maxIter
          acc.1 (a + i * size) (a + i * size + size)
          (f (a + i * size)) (f (a + i * size + size)) 0 q hq with
        h | ⟨x1', x2', l', r', fl', fr', it', heq, ht, hm⟩
      · obtain ⟨x1', x2', l', r', fl', fr', it', heq, ht, hm⟩ := hacc q h
        exact ⟨x1', x2', l', r', fl', fr', it', heq, ht, List.mem_append_left _ hm⟩
      · exact ⟨x1', x2', l', r', fl', fr', it', heq, ht, List.mem_append_right _ hm⟩

/-- Graphical scan tail: every interpolated root comes from a crossing
y[i-1]·y[i] ≤ 0, and the crossing point's sampled row is in the trace. -/
lemma graph_go_root_record (f : ℚ → ℚ) :
    ∀ (l : List ℚ) (xPrev : ℚ) (i : ℕ),
      ∀ r ∈ (graph_go f xPrev (f xPrev) i l).1,
        ∃ xp x, r = pyround 6 (xp - f xp * (x - xp) / (f x - f xp)) ∧
          f xp * f x ≤ 0 ∧
          GRec.sample (pyround 3 x) (pyround 8 (f x)) ∈
            (graph_go f xPrev (f xPrev) i l).2.1 := by
  intro l
  induction l with
  | nil => intro xPrev i r hr; simp [graph_go] at hr
  | cons x rest ih =>
    intro xPrev i r hr
    simp only [graph_go] at hr ⊢
    by_cases hc : f xPrev * f x ≤ 0
    · rw [if_pos hc] at hr ⊢
      rcases List.mem_cons.mp hr with h | h
      · exact ⟨xPrev, x, h, hc, List.mem_cons_self _ _⟩
      · obtain ⟨xp, x', heq, ht, hm⟩ := ih x (i + 1) r h
        exact ⟨xp, x', heq, ht, List.mem_cons_of_mem _ hm⟩
    · rw [if_neg hc] at hr ⊢
      obtain ⟨xp, x', heq, ht, hm⟩ := ih x (i + 1) r hr
      exact ⟨xp, x', heq, ht, List.mem_cons_of_mem _ hm⟩

/-- The whole sampling pass keeps the per-root crossing correspondence. -/
lemma graph_scan_root_record (f : ℚ → ℚ) (l : List ℚ) :
    ∀ r ∈ (graph_scan f l).1,
      ∃ xp x, r = pyround 6 (xp - f xp * (x - xp) / (f x - f xp)) ∧
        f xp * f x ≤ 0 ∧
        GRec.sample (pyround 3 x) (pyround 8 (f x)) ∈ (graph_scan f l).2.1 := by
  cases l with
  | nil => intro r hr; simp [graph_scan] at hr
  | cons x0 rest =>
    intro r hr
    simp only [graph_scan] at hr ⊢
    obtain ⟨xp, x, heq, ht, hm⟩ := graph_go_root_record f rest x0 1 r hr
    exact ⟨xp, x, heq, ht, List.mem_cons_of_mem _ hm⟩

/-- The correspondence survives the periodicity post-processing. -/
lemma graphicalRun_root_record (f : ℚ → ℚ) (xMin xMax step : ℚ) :
    ∀ r ∈ (graphicalRun f xMin xMax step).1,
      ∃ xp x, r = pyround 6 (xp - f xp * (x - xp) / (f x - f xp)) ∧
        f xp * f x ≤ 0 ∧
        GRec.sample (pyround 3 x) (pyround 8 (f x)) ∈
          (graphicalRun f xMin xMax step).2.1 := by
  intro r hr
  unfold graphicalRun at hr ⊢
  by_cases h1 : 4 < (graph_scan f (mkGrid xMin xMax step)).2.2.length
  · by_cases h2 : stdLt (diffs (graph_scan f (mkGrid xMin xMax step)).2.2)
        (mean (diffs (graph_scan f (mkGrid xMin xMax step)).2.2) * (1 / 10))
    · rw [if_pos h1, if_pos h2] at hr ⊢
      obtain ⟨xp, x, heq, ht, hm⟩ := graph_scan_root_record f (mkGrid xMin xMax step) r hr
      exact ⟨xp, x, heq, ht, List.mem_append_left _ hm⟩
    · rw [if_pos h1, if_neg h2] at hr ⊢
      exact graph_scan_root_record f (mkGrid xMin xMax step) r hr
  · rw [if_neg h1] at hr ⊢
    exact graph_scan_root_record f (mkGrid xMin xMax step) r hr

/-- Incremental search: every root comes from a step whose two samples were
finite with product ≤ 0, and that step's normal row is in the trace. -/
lemma incremental_go_root_record (f : ℚ → PyVal) (b step : ℚ) :
    ∀ fuel x it, ∀ r ∈ (incremental_go f b step x it fuel).1,
      ∃ x' it' v w, f x' = PyVal.fin v ∧ f (x' + step) = PyVal.fin w ∧ v * w ≤ 0 ∧
        r = pyround 6 (incRoot x' step v w) ∧
        incNormalRec it' x' v w ∈ (incremental_go f b step x it fuel).2 := by
  intro fuel
  induction fuel with
  | zero => intro x it r hr; simp [incremental_go] at hr
  | succ n ih =>
    intro x it r hr
    by_cases hx : x ≤ b
    · simp only [incremental_go] at hr ⊢
      rw [if_pos hx] at hr ⊢
      rcases h1 : f x with v | _ | _ <;> rcases h2 : f (x + step) with w | _ | _ <;>
        simp only [h1, h2] at hr ⊢
      all_goals try
        (obtain ⟨x', it', v', w', ha, hb, hc, hd, hm⟩ := ih (x + step) (it + 1) r hr
         exact ⟨x', it', v', w', ha, hb, hc, hd, List.mem_cons_of_mem _ hm⟩)
      by_cases hvw : v * w ≤ 0
      · rw [if_pos hvw] at hr ⊢
        rcases List.mem_cons.mp hr with h | h
        · exact ⟨x, it, v, w, h1, h2, hvw, h, List.mem_cons_self _ _⟩
        · obtain ⟨x', it', v', w', ha, hb, hc, hd, hm⟩ := ih (x + step) (it + 1) r h
          exact ⟨x', it', v', w', ha, hb, hc, hd, List.mem_cons_of_mem _ hm⟩
      · rw [if_neg hvw] at hr ⊢
        obtain ⟨x', it', v', w', ha, hb, hc, hd, hm⟩ := ih (x + step) (it + 1) r hr
        exact ⟨x', it', v', w', ha, hb, hc, hd, List.mem_cons_of_mem _ hm⟩
    · simp [incremental_go, hx] at hr

/-- C9: in every method, each root in the returned sequence corresponds to
the very iteration at which that method's convergence or root-detection
test passed — the root equals the value accepted at that state, the test
holds there, and that iteration's record is in the returned record
sequence; consequently roots are never produced without an accompanying
record (the record sequence, possibly with no root, is returned either
way, and roots never outnumber records). -/
theorem c9_root_record_correspondence :
    (∀ (f : ℚ → ℚ) (a b tol : ℚ) (maxIter : ℕ),
      ∀ r ∈ (bisection_method f a b tol maxIter).1,
        ∃ a' b' xo it', r = pyround 7 ((a' + b') / 2) ∧
          ((bisectErr a' b' xo < tol ∧ 1 < it') ∨ |f ((a' + b') / 2)| < eps) ∧
          bisectRec f a' b' xo it' ∈ (bisection_method f a b tol maxIter).2) ∧
    (∀ (f df : ℚ → ℚ) (x0 tol : ℚ) (maxIter numGuesses : ℕ),
      ∀ r ∈ (newton_raphson f df x0 tol maxIter numGuesses).1,
        ∃ x' it', r = pyround 6 (newtonNext f df x') ∧ newtonEa f df x' < tol ∧
          newtonIterRec f df x' it' ∈
            (newton_raphson f df x0 tol maxIter numGuesses).2) ∧
    (∀ (f : ℚ → ℚ) (x0 x1 tol : ℚ) (maxIter : ℕ),
      ∀ r ∈ (secant_method f x0 x1 tol maxIter).1,
        ∃ xp xi it, r = pyround 6 (secantNext f xp xi) ∧
          secantEa f xp xi < tol ∧ |f (secantNext f xp xi)| < tol ∧
          secantRec f xp xi it ∈ (secant_method f x0 x1 tol maxIter).2) ∧
    (∀ (f : ℚ → ℚ) (a b tol : ℚ) (maxIter numIntervals : ℕ),
      ∀ r ∈ (regula_falsi f a b tol maxIter numIntervals).1,
        ∃ x1 x2 left right fl fr it, r = pyround 6 (regulaC left right fl fr) ∧
          |f (regulaC left right fl fr)| < tol ∧
          regulaRec f x1 x2 left right fl fr it ∈
            (regula_falsi f a b tol maxIter numIntervals).2) ∧
    (∀ (f : ℚ → ℚ) (xMin xMax step : ℚ),
      ∀ r ∈ (graphicalRun f xMin xMax step).1,
        ∃ xp x, r = pyround 6 (xp - f xp * (x - xp) / (f x - f xp)) ∧
          f xp * f x ≤ 0 ∧
          GRec.sample (pyround 3 x) (pyround 8 (f x)) ∈
            (graphicalRun f xMin xMax step).2.1) ∧
    (∀ (f : ℚ → PyVal) (a b step : ℚ),
      ∀ r ∈ (incremental_search f a b step).1,
        ∃ x' it' v w, f x' = PyVal.fin v ∧ f (x' + step) = PyVal.fin w ∧
          v * w ≤ 0 ∧ r = pyround 6 (incRoot x' step v w) ∧
          incNormalRec it' x' v w ∈ (incremental_search f a b step).2) ∧
    (∀ (f : ℚ → ℚ) (a b tol : ℚ) (maxIter : ℕ),
      (bisection_method f a b tol maxIter).1.length ≤
        (bisection_method f a b tol maxIter).2.length) ∧
    (∀ (f df : ℚ → ℚ) (x0 tol : ℚ) (maxIter numGuesses : ℕ),
      (newton_raphson f df x0 tol maxIter numGuesses).1.length ≤
        (newton_raphson f df x0 tol maxIter numGuesses).2.length) ∧
    (∀ (f : ℚ → ℚ) (x0 x1 tol : ℚ) (maxIter : ℕ),
      (secant_method f x0 x1 tol maxIter).1.length ≤
        (secant_method f x0 x1 tol maxIter).2.length) ∧
    (∀ (f : ℚ → ℚ) (a b tol : ℚ) (maxIter numIntervals : ℕ),
      (regula_falsi f a b tol maxIter numIntervals).1.length ≤
        (regula_falsi f a b tol maxIter numIntervals).2.length) ∧
    (∀ (f : ℚ → ℚ) (xMin xMax step : ℚ),
      (graphicalRun f xMin xMax step).1.length ≤
        (graphicalRun f xMin xMax step).2.1.length) ∧
    (∀ (f : ℚ → PyVal) (a b step : ℚ),
      (incremental_search f a b step).1.length ≤
        (incremental_search f a b step).2.length) := by
  refine ⟨?_, ?_, ?_, ?_, ?_, ?_, ?_, ?_, ?_, ?_, ?_, ?_⟩
  · intro f a b tol maxIter r hr
    unfold bisection_method at hr ⊢
    by_cases hpre : f a * f b > 0
    · rw [if_pos hpre] at hr
      simp at hr
    · rw [if_neg hpre] at hr ⊢
      exact bisection_go_root_record f tol maxIter a b none 1 r hr
  · intro f df x0 tol maxIter numGuesses r hr
    unfold newton_raphson at hr ⊢
    exact newton_go_root_record f df tol maxIter maxIter x0 0 r hr
  · intro f x0 x1 tol maxIter r hr
    unfold secant_method at hr ⊢
    exact secant_go_root_record f tol maxIter maxIter x0 x1 0 r hr
  · intro f a b tol maxIter numIntervals r hr
    unfold regula_falsi at hr ⊢
    exact regula_foldl_root_record f a ((b - a) / (numIntervals : ℚ)) tol maxIter
      (List.range numIntervals) ([], []) (by simp) r hr
  · exact graphicalRun_root_record
  · intro f a b step r hr
    unfold incremental_search at hr ⊢
    exact incremental_go_root_record f b step (incFuel a b step) a 1 r hr
  · intro f a b tol maxIter
    unfold bisection_method
    split
    · simp
    · exact (bisection_go_bounds f tol maxIter a b none 1).2.2
  · intro f df x0 tol maxIter numGuesses
    exact newton_go_len f df tol maxIter maxIter x0 0
  · intro f x0 x1 tol maxIter
    exact secant_go_len f tol maxIter maxIter x0 x1 0
  · intro f a b tol maxIter numIntervals
    exact regula_foldl_len f a ((b - a) / (numIntervals : ℚ)) tol maxIter
      (List.range numIntervals) ([], []) (by simp)
  · intro f xMin xMax step
    unfold graphicalRun
    split
    · split
      · simp only [List.length_append]
        exact Nat.le_trans (graph_scan_len f (mkGrid xMin xMax step)) (by omega)
      · exact graph_scan_len f (mkGrid xMin xMax step)
    · exact graph_scan_len f (mkGrid xMin xMax step)
  · intro f a b step
    exact incremental_go_len f b step (incFuel a b step) a 1

end RootFinder
